import Mathlib

/-!
Verification of the AppLens scan-and-build pipeline and its frontend glue.

The frontend code (src/frontend) is embedded directly from the TypeScript
sources.  The backend core (graph builder, scan orchestrator, impact
analyzer, service resolver) is not part of the source tree; those
components are modelled from the specification, as marked on each
definition.
-/

namespace AppLens

/-! ## Frontend: api.ts `getApiUrl` -/

/-- A browser `window.location`: protocol (including the trailing colon,
e.g. `https:`) and hostname. -/
structure Window where
  protocol : String
  hostname : String
deriving DecidableEq

/-- The environment `getApiUrl` reads: the `NEXT_PUBLIC_API_URL` variable
(`none` when unset, `some s` when set to `s`) and the browser window
(`none` during server-side rendering). -/
structure ApiEnv where
  apiUrl : Option String
  window : Option Window
deriving DecidableEq

/-- JavaScript truthiness of `process.env.NEXT_PUBLIC_API_URL`: an unset
variable is `undefined` (falsy) and an empty string is falsy. -/
def envTruthy : Option String → Bool
  | none => false
  | some s => s ≠ ""

/-- Embedding of `getApiUrl` from src/frontend/lib/api.ts:
return the env variable when truthy; otherwise, in a browser, localhost
hosts map to `http://localhost:8000` and anything else to
`protocol + "//" + hostname + "/api"`; without a window fall back to
`http://localhost:8000`. -/
def getApiUrl (env : ApiEnv) : String :=
  if envTruthy env.apiUrl then env.apiUrl.getD "" else
  match env.window with
  | some w =>
    if w.hostname = "localhost" ∨ w.hostname = "127.0.0.1" then
      "http://localhost:8000"
    else
      w.protocol ++ "//" ++ w.hostname ++ "/api"
  | none => "http://localhost:8000"

example : getApiUrl ⟨some "http://x:1", none⟩ = "http://x:1" := by decide
example : getApiUrl ⟨none, some ⟨"https:", "applens.io"⟩⟩ = "https://applens.io/api" := by decide
example : getApiUrl ⟨none, some ⟨"http:", "localhost"⟩⟩ = "http://localhost:8000" := by decide
example : getApiUrl ⟨some "", none⟩ = "http://localhost:8000" := by decide

/-! ## Frontend: ChatDock `truncateToWords` -/

/-- Maximal whitespace-free runs of a character list; `cur` accumulates the
(reversed) run currently being read. -/
def wordsAux : List Char → List Char → List (List Char)
  | [], [] => []
  | [], c :: cs => [(c :: cs).reverse]
  | c :: rest, cur =>
    if c.isWhitespace then
      match cur with
      | [] => wordsAux rest []
      | _ :: _ => cur.reverse :: wordsAux rest []
    else wordsAux rest (c :: cur)

/-- The word list JavaScript's `text.trim().split(/\s+/)` produces: a
whitespace-only (or empty) trimmed string gives the single empty word,
otherwise the maximal whitespace-free runs of the text. -/
def splitWords (text : String) : List String :=
  match wordsAux text.data [] with
  | [] => [""]
  | w :: ws => (w :: ws).map (fun l => ⟨l⟩)

/-- Embedding of `truncateToWords` from src/frontend/components/ChatDock.tsx:
falsy (empty) text gives `("", false)`; text of at most `wordLimit` words is
returned unchanged with `false`; longer text is cut to its first
`wordLimit` words joined by single spaces with `"..."` appended, flagged
`true`.  The TypeScript default for `wordLimit` is 100. -/
def truncateToWords (text : String) (wordLimit : Nat) : String × Bool :=
  if text = "" then ("", false)
  else
    let words := splitWords text
    if words.length ≤ wordLimit then (text, false)
    else (String.intercalate " " (words.take wordLimit) ++ "...", true)

example : truncateToWords "one two three" 5 = ("one two three", false) := by decide
example : truncateToWords "one two three" 2 = ("one two...", true) := by decide
example : truncateToWords "" 3 = ("", false) := by decide
example : truncateToWords "  a   b  " 1 = ("a...", true) := by decide

/-! ## Frontend: ChatDock `handleSend` endpoint routing -/

/-- `listContainsSub s pat` is JavaScript's `s.includes(pat)` on character
lists: `pat` occurs as a contiguous run of `s`. -/
def listContainsSub : List Char → List Char → Bool
  | [], pat => pat.isEmpty
  | c :: rest, pat => List.isPrefixOf pat (c :: rest) || listContainsSub rest pat

/-- JavaScript's `s.includes(pat)` for strings. -/
def containsSub (s pat : String) : Bool := listContainsSub s.data pat.data

/-- JavaScript's `s.toLowerCase()` restricted to per-character lowering. -/
def lowerStr (s : String) : String := ⟨s.data.map Char.toLower⟩

example : containsSub "show me the error log" "error" = true := by decide
example : containsSub "hello" "ell" = true := by decide
example : containsSub "hello" "elo" = false := by decide
example : lowerStr "What IF" = "what if" := by decide

/-- The ChatDock tool modes (src/frontend/components/ChatDock.tsx). -/
inductive ToolMode
  | chat
  | errorAnalyzer
  | whatIf
  | nlq
deriving DecidableEq, BEq

/-- The three chat endpoints `handleSend` can post to. -/
inductive ChatEndpoint
  | errorAnalyzerEndpoint
  | whatIfEndpoint
  | nlqEndpoint
deriving DecidableEq, BEq

/-- Embedding of the endpoint-selection chain of `handleSend`
(src/frontend/components/ChatDock.tsx, the if/else-if cascade):
explicit `error-analyzer` mode, or `chat` mode whose lowercased message
contains `error` or `log`, posts to `/chat/error-analyzer`; otherwise
explicit `what-if` mode, or `chat` mode containing `what if`, `impact` or
`change`, posts to `/chat/what-if`; otherwise `nlq` or `chat` mode posts to
`/chat/nlq`.  `none` would mean no endpoint is called. -/
def routeEndpoint (mode : ToolMode) (msg : String) : Option ChatEndpoint :=
  if mode == ToolMode.errorAnalyzer ||
      (mode == ToolMode.chat &&
        (containsSub (lowerStr msg) "error" || containsSub (lowerStr msg) "log")) then
    some ChatEndpoint.errorAnalyzerEndpoint
  else if mode == ToolMode.whatIf ||
      (mode == ToolMode.chat &&
        (containsSub (lowerStr msg) "what if" || containsSub (lowerStr msg) "impact" ||
          containsSub (lowerStr msg) "change")) then
    some ChatEndpoint.whatIfEndpoint
  else if mode == ToolMode.nlq || mode == ToolMode.chat then
    some ChatEndpoint.nlqEndpoint
  else
    none

example : routeEndpoint ToolMode.chat "I see an ERROR here" = some ChatEndpoint.errorAnalyzerEndpoint := by decide
example : routeEndpoint ToolMode.chat "what if we change X" = some ChatEndpoint.whatIfEndpoint := by decide
example : routeEndpoint ToolMode.chat "hello" = some ChatEndpoint.nlqEndpoint := by decide
example : routeEndpoint ToolMode.whatIf "error log" = some ChatEndpoint.whatIfEndpoint := by decide
example : routeEndpoint ToolMode.nlq "error" = some ChatEndpoint.nlqEndpoint := by decide

/-! ## Frontend: Graph3D `cleanData` -/

/-- A raw graph node as received by the `Graph3D` component: `id` and
`name` may each be absent (`null`/`undefined`). -/
structure RawNode where
  id : Option String
  name : Option String
deriving DecidableEq

/-- A raw graph link: the coerced string id of its source and target
endpoints, absent when the endpoint was `null`/`undefined`. -/
structure RawLink where
  source : Option String
  target : Option String
deriving DecidableEq

/-- A cleaned node: both `id` and `name` are definite strings. -/
structure CleanNode where
  id : String
  name : String
deriving DecidableEq

/-- Embedding of the node-cleaning map of `cleanData`
(src/frontend/components/Graph3D.tsx): `id` falls back to `name` and then
to `n-` followed by the index, and symmetrically for `name`. -/
def cleanNodeAt (i : Nat) (n : RawNode) : CleanNode :=
  { id := n.id.getD (n.name.getD ("n-" ++ toString i)),
    name := n.name.getD (n.id.getD ("n-" ++ toString i)) }

/-- All cleaned nodes, each cleaned at its own index. -/
def cleanNodes (ns : List RawNode) : List CleanNode :=
  ns.enum.map (fun p => cleanNodeAt p.1 p.2)

/-- `String(l?.source?.id ?? l?.source ?? '')`: a missing endpoint coerces
to the empty string. -/
def linkSourceId (l : RawLink) : String := l.source.getD ""

/-- `String(l?.target?.id ?? l?.target ?? '')`. -/
def linkTargetId (l : RawLink) : String := l.target.getD ""

/-- Embedding of the link-cleaning pass of `cleanData`
(src/frontend/components/Graph3D.tsx): a link survives only when both
endpoint ids are nonempty and present in the cleaned node table built from
the same snapshot; surviving links are rewritten to their endpoint ids. -/
def cleanLinks (ns : List RawNode) (ls : List RawLink) : List (String × String) :=
  ls.filterMap (fun l =>
    if linkSourceId l = "" ∨ linkTargetId l = "" ∨
        linkSourceId l ∉ (cleanNodes ns).map CleanNode.id ∨
        linkTargetId l ∉ (cleanNodes ns).map CleanNode.id then none
    else some (linkSourceId l, linkTargetId l))

example :
    cleanLinks [⟨some "a", none⟩, ⟨none, some "b"⟩]
      [⟨some "a", some "b"⟩, ⟨some "a", some "zz"⟩, ⟨none, some "b"⟩] = [("a", "b")] := by
  decide

/-! ## Scan job status and the dashboard polling loop -/

/-- The scan-job statuses of the specification's state machine. -/
inductive ScanStatus
  | queued
  | fetching
  | analyzing
  | building
  | success
  | error
deriving DecidableEq, BEq

/-- Modelled from the spec: the `ScanJob` status state machine
`queued → fetching → analyzing → building → {success | error}` (§4.4),
with a repository-level failure allowed to end any non-terminal state in
`error`, and no transition out of `success` or `error` (terminal, §3).
The backend orchestrator itself is not in the source tree. -/
def allowedTransition : ScanStatus → ScanStatus → Bool
  | ScanStatus.queued, ScanStatus.fetching => true
  | ScanStatus.queued, ScanStatus.error => true
  | ScanStatus.fetching, ScanStatus.analyzing => true
  | ScanStatus.fetching, ScanStatus.error => true
  | ScanStatus.analyzing, ScanStatus.building => true
  | ScanStatus.analyzing, ScanStatus.error => true
  | ScanStatus.building, ScanStatus.success => true
  | ScanStatus.building, ScanStatus.error => true
  | _, _ => false

/-- The client state of the dashboard polling loop
(src/frontend/app/dashboard/page.tsx): whether the interval is still
running, the route navigated to, and the alert raised, if any. -/
structure PollState where
  polling : Bool
  navigation : Option String
  alertMsg : Option String
deriving DecidableEq

/-- One `/scan/status` response observed by the polling callback. -/
structure StatusResponse where
  status : ScanStatus
  errMsg : String
deriving DecidableEq

/-- Embedding of the polling callback of `handleStartScan`
(src/frontend/app/dashboard/page.tsx): on `success` the interval is
cleared and the client navigates to the graph page; on `error` the
interval is cleared and the error is surfaced via `alert`; on any other
status the callback changes nothing.  A cleared interval never fires
again, so a non-polling state is absorbing. -/
def pollTick (scanId : String) (st : PollState) (resp : StatusResponse) : PollState :=
  if st.polling then
    match resp.status with
    | ScanStatus.success =>
      { polling := false,
        navigation := some ("/graph?scan_id=" ++ scanId),
        alertMsg := st.alertMsg }
    | ScanStatus.error =>
      { polling := false,
        navigation := st.navigation,
        alertMsg := some ("Scan failed: " ++ resp.errMsg) }
    | _ => st
  else st

example :
    pollTick "7" ⟨true, none, none⟩ ⟨ScanStatus.success, ""⟩ =
      ⟨false, some "/graph?scan_id=7", none⟩ := by decide
example :
    pollTick "7" ⟨true, none, none⟩ ⟨ScanStatus.building, ""⟩ = ⟨true, none, none⟩ := by decide

/-! ## Backend model: graph data model and Graph Builder

The backend core is not part of the source tree; each definition below is
modelled from the specification (§3, §4.3–§4.5). -/

/-- Modelled from the spec: the two interaction kinds (§3). -/
inductive EdgeKind
  | http
  | kafka
deriving DecidableEq, BEq

/-- Modelled from the spec: the deduplication key of an edge —
`(source, target, kind, payload-signature)` (§3).  For HTTP the edge
points caller→callee, for Kafka producer→consumer. -/
structure EdgeKey where
  source : String
  target : String
  kind : EdgeKind
  payload : String
deriving DecidableEq, BEq

/-- Modelled from the spec: a dependency graph — a node table of canonical
service ids and an edge table mapping each edge key to its occurrence
count (§3, §4.3). -/
structure Graph where
  nodes : List String
  edges : List (EdgeKey × Nat)
deriving DecidableEq

/-- The empty graph a scan starts from. -/
def emptyGraph : Graph := { nodes := [], edges := [] }

/-- Modelled from the spec: one resolved endpoint of the Resolver's output
stream — evidence of one interaction between two canonical services. -/
structure ResolvedEndpoint where
  source : String
  target : String
  kind : EdgeKind
  payload : String
deriving DecidableEq

/-- The edge key a resolved endpoint is deduplicated by. -/
def edgeKeyOf (r : ResolvedEndpoint) : EdgeKey :=
  { source := r.source, target := r.target, kind := r.kind, payload := r.payload }

/-- Modelled from the spec: node insertion is idempotent — a node already
in the table is left alone (§4.3). -/
def insertNode (g : Graph) (n : String) : Graph :=
  if n ∈ g.nodes then g else { g with nodes := g.nodes ++ [n] }

/-- Modelled from the spec: edge insertion increments the occurrence count
of an existing key and otherwise appends the key with count 1 (§3, §4.3). -/
def bumpEdge : List (EdgeKey × Nat) → EdgeKey → List (EdgeKey × Nat)
  | [], k => [(k, 1)]
  | (k', c) :: rest, k =>
    if k' = k then (k', c + 1) :: rest else (k', c) :: bumpEdge rest k

/-- Modelled from the spec: feeding one resolved endpoint to the Builder
inserts both endpoint nodes and bumps the edge (§4.3). -/
def insertEndpoint (g : Graph) (r : ResolvedEndpoint) : Graph :=
  let g2 := insertNode (insertNode g r.source) r.target
  { g2 with edges := bumpEdge g2.edges (edgeKeyOf r) }

/-- Modelled from the spec: `build(resolved_endpoints_stream) -> Graph`,
folding the stream into a fresh empty graph (§4.3). -/
def buildGraph (rs : List ResolvedEndpoint) : Graph :=
  rs.foldl insertEndpoint emptyGraph

/-- Total occurrence count recorded for an edge key. -/
def edgeCount (g : Graph) (k : EdgeKey) : Nat :=
  (g.edges.map (fun p => if p.1 = k then p.2 else 0)).sum

/-- How many endpoints of a resolved stream carry a given edge key. -/
def streamKeyCount (rs : List ResolvedEndpoint) (k : EdgeKey) : Nat :=
  (rs.filter (fun r => edgeKeyOf r = k)).length

/-- A graph already holds the footprint of a resolved endpoint: both its
nodes and its edge key are present. -/
def hasFootprint (g : Graph) (r : ResolvedEndpoint) : Prop :=
  r.source ∈ g.nodes ∧ r.target ∈ g.nodes ∧ edgeKeyOf r ∈ g.edges.map Prod.fst

example :
    (buildGraph [⟨"a", "b", EdgeKind.http, "POST /x"⟩, ⟨"a", "b", EdgeKind.http, "POST /x"⟩]).nodes
      = ["a", "b"] := by decide
example :
    edgeCount (buildGraph [⟨"a", "b", EdgeKind.http, "POST /x"⟩, ⟨"a", "b", EdgeKind.http, "POST /x"⟩])
      ⟨"a", "b", EdgeKind.http, "POST /x"⟩ = 2 := by decide

/-! ## Backend model: Impact Analyzer -/

/-- Lexicographic comparison of character lists. -/
def listLt : List Char → List Char → Bool
  | [], [] => false
  | [], _ :: _ => true
  | _ :: _, [] => false
  | a :: as, b :: bs => if a < b then true else if b < a then false else listLt as bs

/-- Lexicographic comparison of strings. -/
def strLt (a b : String) : Bool := listLt a.data b.data

/-- Insertion into a sorted duplicate-free list of node ids, used for the
specification's stable sorted-by-node-id frontier ordering (§4.5). -/
def insertSorted (x : String) : List String → List String
  | [] => [x]
  | y :: ys => if x = y then y :: ys else if strLt x y then x :: y :: ys else y :: insertSorted x ys

/-- Add every element of `xs` to the sorted duplicate-free list `acc`. -/
def insertAllSorted (acc : List String) (xs : List String) : List String :=
  xs.foldl (fun a x => insertSorted x a) acc

/-- Sort a list of node ids and drop duplicates. -/
def sortDedup (xs : List String) : List String := insertAllSorted [] xs

example : sortDedup ["b", "a", "b", "c"] = ["a", "b", "c"] := by decide

/-- Modelled from the spec: the one-hop domino frontier of a failing node
`x` — for HTTP edges the callers of edges into `x` (reverse direction),
for Kafka edges the consumers of edges out of `x` (forward direction)
(§4.5). -/
def dominoNeighbors (g : Graph) (x : String) : List String :=
  g.edges.filterMap
    (fun e => if e.1.kind = EdgeKind.http ∧ e.1.target = x then some e.1.source else none)
  ++ g.edges.filterMap
    (fun e => if e.1.kind = EdgeKind.kafka ∧ e.1.source = x then some e.1.target else none)

/-- Modelled from the spec: the cascading wave of error propagation —
repeat the per-kind directional rule outward from the current frontier,
never revisiting a node; `fuel` bounds the number of waves (§4.5). -/
def dominoCascade (g : Graph) (fuel : Nat) (visited frontier : List String) : List String :=
  match fuel with
  | 0 => []
  | fuel + 1 =>
    let next := sortDedup
      ((frontier.flatMap (dominoNeighbors g)).filter (fun y => y ∉ visited))
    next ++ dominoCascade g fuel (visited ++ next) next

/-- The result of an error-propagation query. -/
structure Propagation where
  direct : List String
  cascading : List String
deriving DecidableEq

/-- Modelled from the spec:
`error_propagation(source_service_id) -> {direct, cascading}` — `direct`
is the sorted 1-hop frontier under the per-kind directional rule,
`cascading` everything reached by repeating that rule outward,
deduplicated against already-visited nodes (§4.5). -/
def error_propagation (g : Graph) (x : String) : Propagation :=
  let direct := sortDedup (dominoNeighbors g x)
  { direct := direct,
    cascading := dominoCascade g g.nodes.length (x :: direct) direct }

/-- Modelled from the spec: undirected adjacency — both outgoing and
incoming edges of `x` (§4.5). -/
def undirNeighbors (g : Graph) (x : String) : List String :=
  g.edges.filterMap (fun e => if e.1.source = x then some e.1.target else none)
  ++ g.edges.filterMap (fun e => if e.1.target = x then some e.1.source else none)

/-- One undirected BFS expansion: the reached set grows by every
neighbor of a reached node. -/
def growOnce (g : Graph) (s : List String) : List String :=
  insertAllSorted s (s.flatMap (undirNeighbors g))

/-- The set of nodes within `n` undirected hops of `x`. -/
def reachSet (g : Graph) (x : String) : Nat → List String
  | 0 => [x]
  | n + 1 => growOnce g (reachSet g x n)

/-- The BFS layer at distance `d`: the changed service itself at hop 0,
and at hop `d + 1` the nodes first reached at that hop. -/
def blastBlock (g : Graph) (x : String) : Nat → List (String × Nat)
  | 0 => [(x, 0)]
  | d + 1 =>
    ((reachSet g x (d + 1)).filter (fun y => y ∉ reachSet g x d)).map (fun y => (y, d + 1))

/-- Modelled from the spec:
`blast_radius(changed_service_id, max_hops) -> {node_id: hop_distance}` —
undirected BFS up to `max_hops`, every reached node mapped to its minimum
hop distance, hop 0 being the changed service itself (§4.5). -/
def blast_radius (g : Graph) (x : String) (maxHops : Nat) : List (String × Nat) :=
  (List.range (maxHops + 1)).flatMap (blastBlock g x)

/-- Undirected walks: `ReachN g x y n` holds when `y` is reachable from
`x` in exactly `n` undirected hops. -/
inductive ReachN (g : Graph) (x : String) : String → Nat → Prop where
  | zero : ReachN g x x 0
  | succ {y z : String} {n : Nat} :
      ReachN g x y n → z ∈ undirNeighbors g y → ReachN g x z (n + 1)

/-- `d` is the minimum undirected hop distance from `x` to `y`. -/
def minHopDist (g : Graph) (x y : String) (d : Nat) : Prop :=
  ReachN g x y d ∧ ∀ m, ReachN g x y m → d ≤ m

/-- The three-service example graph of the specification's
direction-correctness scenario (§8), with one extra HTTP edge on which
`paymentService` is the caller. -/
def exPropGraph : Graph :=
  { nodes := ["orderService", "paymentService", "notificationService", "dbService"],
    edges :=
      [(⟨"orderService", "paymentService", EdgeKind.http, "POST /payments"⟩, 1),
       (⟨"paymentService", "notificationService", EdgeKind.kafka, "payment-events"⟩, 1),
       (⟨"paymentService", "dbService", EdgeKind.http, "GET /db"⟩, 1)] }

example :
    (error_propagation exPropGraph "paymentService").direct
      = ["notificationService", "orderService"] := by decide
example : (error_propagation exPropGraph "paymentService").cascading = [] := by decide
example : blast_radius exPropGraph "paymentService" 0 = [("paymentService", 0)] := by decide
example :
    blast_radius exPropGraph "orderService" 2 =
      [("orderService", 0), ("paymentService", 1),
       ("dbService", 2), ("notificationService", 2)] := by decide

/-! ## Backend model: Scan Pipeline -/

/-- Modelled from the spec: what one repository contributed to a scan —
either its resolved-endpoint stream, or a repository-level failure reason
(§4.4). -/
structure RepoScan where
  repoName : String
  result : Except String (List ResolvedEndpoint)

/-- The two terminal job statuses of a finished scan. -/
inductive JobStatus
  | success
  | error
deriving DecidableEq

/-- The scan result surfaced to the caller: terminal status, the
per-repository error map, and the built graph. -/
structure ScanResult where
  status : JobStatus
  perRepoErrors : List (String × String)
  graph : Graph

/-- Whether a repository failed outright. -/
def repoFailed (s : RepoScan) : Bool :=
  match s.result with
  | Except.error _ => true
  | Except.ok _ => false

/-- Whether a repository yielded any nodes (a nonempty resolved stream). -/
def repoYieldedNodes (s : RepoScan) : Bool :=
  match s.result with
  | Except.error _ => false
  | Except.ok rs => !rs.isEmpty

/-- The concatenated resolved-endpoint stream of the successful
repositories, in scan order. -/
def successfulEndpoints (scans : List RepoScan) : List ResolvedEndpoint :=
  scans.flatMap (fun s =>
    match s.result with
    | Except.ok rs => rs
    | Except.error _ => [])

/-- The `per_repo_errors` map: each failed repository with its reason. -/
def failedRepos (scans : List RepoScan) : List (String × String) :=
  scans.filterMap (fun s =>
    match s.result with
    | Except.ok _ => none
    | Except.error e => some (s.repoName, e))

/-- Modelled from the spec: the final aggregation of
`run_scan(repos) -> ScanResult` — the graph is built from the successful
repositories' streams only, the status is `error` exactly when every
repository failed outright, and `per_repo_errors` lists the failed
repositories (§4.4, §7). -/
def run_scan (scans : List RepoScan) : ScanResult :=
  { status := if scans.all repoFailed then JobStatus.error else JobStatus.success,
    perRepoErrors := failedRepos scans,
    graph := buildGraph (successfulEndpoints scans) }

example :
    (run_scan [⟨"r1", Except.ok [⟨"a", "b", EdgeKind.http, "u"⟩]⟩,
               ⟨"r2", Except.error "timeout"⟩]).status = JobStatus.success := by decide
example :
    (run_scan [⟨"r1", Except.error "auth"⟩, ⟨"r2", Except.error "timeout"⟩]).status
      = JobStatus.error := by decide
example :
    (run_scan [⟨"r1", Except.ok [⟨"a", "b", EdgeKind.http, "u"⟩]⟩,
               ⟨"r2", Except.error "timeout"⟩]).perRepoErrors = [("r2", "timeout")] := by decide

/-! ## Backend model: Service Resolver -/

/-- Drop the last `n` characters of a string. -/
def dropLastChars (s : String) (n : Nat) : String := ⟨s.data.take (s.data.length - n)⟩

/-- Whether `s` ends with `suf`, on character lists. -/
def endsWithStr (s suf : String) : Bool := List.isSuffixOf suf.data s.data

/-- Modelled from the spec: strip common identifier suffixes
(`_SERVICE_URL`, `_URL`, `Service`, `Client`, §4.2).  A `_SERVICE_URL`
suffix is handled through its `_URL` tail so that the `SERVICE` token
survives into the dash-case name, matching the end-to-end scenario that
maps `PAYMENT_SERVICE_URL` to `payment-service` (§8). -/
def stripSuffixes (s : String) : String :=
  if endsWithStr s "_URL" then dropLastChars s 4
  else if endsWithStr s "Service" then dropLastChars s 7
  else if endsWithStr s "Client" then dropLastChars s 6
  else s

/-- Modelled from the spec: convert to a repo-style dash-case name —
underscores become dashes and letters are lowered (§4.2). -/
def dashCase (s : String) : String :=
  ⟨s.data.map (fun c => if c = '_' then '-' else c.toLower)⟩

/-- Modelled from the spec: normalize an identifier to a canonical
service name (§4.2). -/
def normalizeIdent (s : String) : String := dashCase (stripSuffixes s)

example : normalizeIdent "PAYMENT_SERVICE_URL" = "payment-service" := by decide
example : normalizeIdent "payment_service" = "payment-service" := by decide
example : normalizeIdent "OrderClient" = "order" := by decide

/-- Canonical service identity: the normalized name together with the
owning repository, or `external` when no known repository matches — node
identity is a pure function of this pair (§3). -/
structure ServiceId where
  name : String
  owner : String
deriving DecidableEq

/-- The stable node id a service identity is keyed by. -/
def serviceNodeId (sid : ServiceId) : String := sid.name ++ "@" ++ sid.owner

/-- The name component encoded in a node id: the characters before the
first `@`. -/
def nodeNamePart (n : String) : String := ⟨n.data.takeWhile (fun c => c ≠ '@')⟩

/-- Modelled from the spec: bind a normalized identifier to a known
repository whose declared service name it matches (exact match, first-seen
order), and otherwise to an `external` identity scoped by the normalized
name alone (§4.2).  `knownRepos` pairs each repository full name with its
declared service name. -/
def resolveIdent (knownRepos : List (String × String)) (ident : String) : ServiceId :=
  match knownRepos.find? (fun p => p.2 = normalizeIdent ident) with
  | some p => { name := normalizeIdent ident, owner := p.1 }
  | none => { name := normalizeIdent ident, owner := "external" }

/-- The two-repository convergence scenario: neither repository declares
`payment-service`, and each contains one call site whose identifier
normalizes to `payment-service`. -/
def exConvRepos : List (String × String) :=
  [("acme/orders", "order-service"), ("acme/shipping", "shipping-service")]

/-- The resolved endpoints the two call sites contribute: each repository's
own service calls the resolved `payment-service` identity. -/
def exConvEndpoints : List ResolvedEndpoint :=
  [{ source := serviceNodeId ⟨"order-service", "acme/orders"⟩,
     target := serviceNodeId (resolveIdent exConvRepos "PAYMENT_SERVICE_URL"),
     kind := EdgeKind.http, payload := "POST /payments" },
   { source := serviceNodeId ⟨"shipping-service", "acme/shipping"⟩,
     target := serviceNodeId (resolveIdent exConvRepos "payment_service"),
     kind := EdgeKind.http, payload := "GET /payments" }]

/-- The graph built from the two repositories' call sites. -/
def exConvGraph : Graph := buildGraph exConvEndpoints

example :
    resolveIdent [("acme/orders", "order-service")] "PAYMENT_SERVICE_URL"
      = ⟨"payment-service", "external"⟩ := by decide
example :
    resolveIdent [("acme/payments", "payment-service")] "PAYMENT_SERVICE_URL"
      = ⟨"payment-service", "acme/payments"⟩ := by decide

/-! ## Claim theorems -/

/-- C1: every link retained by `cleanData` has both endpoint ids present in
the cleaned snapshot's own node table, and a link referencing a node id
missing from that snapshot is dropped, never kept as a dangling
reference. -/
theorem c1_cleanLinks_endpoints (ns : List RawNode) (ls : List RawLink) :
    (∀ p ∈ cleanLinks ns ls,
        p.1 ∈ (cleanNodes ns).map CleanNode.id ∧ p.2 ∈ (cleanNodes ns).map CleanNode.id) ∧
    (∀ l ∈ ls,
        (linkSourceId l ∉ (cleanNodes ns).map CleanNode.id ∨
          linkTargetId l ∉ (cleanNodes ns).map CleanNode.id) →
        (linkSourceId l, linkTargetId l) ∉ cleanLinks ns ls) := by
  have h1 : ∀ p ∈ cleanLinks ns ls,
      p.1 ∈ (cleanNodes ns).map CleanNode.id ∧ p.2 ∈ (cleanNodes ns).map CleanNode.id := by
    intro p hp
    unfold cleanLinks at hp
    simp only [List.mem_filterMap] at hp
    obtain ⟨l, _, heq⟩ := hp
    by_cases hc :
        linkSourceId l = "" ∨ linkTargetId l = "" ∨
          linkSourceId l ∉ (cleanNodes ns).map CleanNode.id ∨
          linkTargetId l ∉ (cleanNodes ns).map CleanNode.id
    · rw [if_pos hc] at heq
      exact Option.noConfusion heq
    · rw [if_neg hc] at heq
      push_neg at hc
      cases heq
      exact ⟨hc.2.2.1, hc.2.2.2⟩
  refine ⟨h1, ?_⟩
  intro l _ hmiss hmem
  have := h1 (linkSourceId l, linkTargetId l) hmem
  rcases hmiss with h | h
  · exact h this.1
  · exact h this.2

/-- C1 witness: a concrete link whose target id `zz` is not in the node
table is dropped. -/
theorem c1_cleanLinks_witness :
    ("a", "zz") ∉ cleanLinks [⟨some "a", none⟩, ⟨none, some "b"⟩] [⟨some "a", some "zz"⟩] :=
  (c1_cleanLinks_endpoints [⟨some "a", none⟩, ⟨none, some "b"⟩] [⟨some "a", some "zz"⟩]).2
    ⟨some "a", some "zz"⟩ (by decide) (Or.inr (by decide))

/-- C2: on the graph with `orderService --HTTP--> paymentService`,
`paymentService --KAFKA--> notificationService` (and an extra
`paymentService --HTTP--> dbService` edge on which `paymentService` is the
caller), `error_propagation "paymentService"` returns exactly
`direct = {orderService, notificationService}`, and neither the direct nor
the cascading set contains `dbService`, the node reachable only via an
HTTP edge where `paymentService` is the caller. -/
theorem c2_error_propagation_direction :
    (error_propagation exPropGraph "paymentService").direct
        = ["notificationService", "orderService"] ∧
    "orderService" ∈ (error_propagation exPropGraph "paymentService").direct ∧
    "notificationService" ∈ (error_propagation exPropGraph "paymentService").direct ∧
    "dbService" ∉ (error_propagation exPropGraph "paymentService").direct ∧
    "dbService" ∉ (error_propagation exPropGraph "paymentService").cascading := by
  decide

theorem insertNode_of_mem {g : Graph} {n : String} (h : n ∈ g.nodes) : insertNode g n = g := by
  simp [insertNode, h]

theorem insertNode_edges (g : Graph) (n : String) : (insertNode g n).edges = g.edges := by
  unfold insertNode
  split <;> rfl

theorem mem_insertNode_self (g : Graph) (n : String) : n ∈ (insertNode g n).nodes := by
  unfold insertNode
  split
  · assumption
  · simp

theorem mem_insertNode_of_mem {g : Graph} {m : String} (n : String) (h : m ∈ g.nodes) :
    m ∈ (insertNode g n).nodes := by
  unfold insertNode
  split
  · exact h
  · simp [h]

theorem bumpEdge_keys_of_mem {es : List (EdgeKey × Nat)} {k : EdgeKey}
    (h : k ∈ es.map Prod.fst) : (bumpEdge es k).map Prod.fst = es.map Prod.fst := by
  induction es with
  | nil => simp at h
  | cons p rest ih =>
    cases p with
    | mk k0 c =>
      simp only [bumpEdge]
      by_cases hk : k0 = k
      · rw [if_pos hk]
        simp
      · rw [if_neg hk]
        simp only [List.map_cons, List.mem_cons] at h
        rcases h with h | h
        · exact absurd h.symm hk
        · simp only [List.map_cons]
          rw [ih h]

theorem bumpEdge_keys_mono {es : List (EdgeKey × Nat)} {k' : EdgeKey} (k : EdgeKey)
    (h : k' ∈ es.map Prod.fst) : k' ∈ (bumpEdge es k).map Prod.fst := by
  induction es with
  | nil => simp at h
  | cons p rest ih =>
    cases p with
    | mk k0 c =>
      simp only [bumpEdge]
      split
      · simpa using h
      · simp only [List.map_cons, List.mem_cons] at h ⊢
        rcases h with h | h
        · exact Or.inl h
        · exact Or.inr (ih h)

theorem mem_bumpEdge_self (es : List (EdgeKey × Nat)) (k : EdgeKey) :
    k ∈ (bumpEdge es k).map Prod.fst := by
  induction es with
  | nil => simp [bumpEdge]
  | cons p rest ih =>
    cases p with
    | mk k0 c =>
      simp only [bumpEdge]
      split
      · rename_i hk
        simp [hk]
      · simp only [List.map_cons, List.mem_cons]
        exact Or.inr ih

theorem bumpEdge_count (es : List (EdgeKey × Nat)) (k k' : EdgeKey) :
    ((bumpEdge es k).map (fun p => if p.1 = k' then p.2 else 0)).sum =
      (es.map (fun p => if p.1 = k' then p.2 else 0)).sum + (if k = k' then 1 else 0) := by
  induction es with
  | nil => simp [bumpEdge]
  | cons p rest ih =>
    cases p with
    | mk k0 c =>
      simp only [bumpEdge]
      split
      · rename_i hk
        subst hk
        by_cases h' : k0 = k'
        · simp [h']
          omega
        · simp [h']
      · simp only [List.map_cons, List.sum_cons]
        rw [ih]
        omega

theorem insertEndpoint_nodes (g : Graph) (r : ResolvedEndpoint) :
    (insertEndpoint g r).nodes = (insertNode (insertNode g r.source) r.target).nodes := rfl

theorem insertEndpoint_edges (g : Graph) (r : ResolvedEndpoint) :
    (insertEndpoint g r).edges = bumpEdge g.edges (edgeKeyOf r) := by
  show bumpEdge (insertNode (insertNode g r.source) r.target).edges (edgeKeyOf r)
      = bumpEdge g.edges (edgeKeyOf r)
  rw [insertNode_edges, insertNode_edges]

theorem edgeCount_insertEndpoint (g : Graph) (r : ResolvedEndpoint) (k : EdgeKey) :
    edgeCount (insertEndpoint g r) k = edgeCount g k + (if edgeKeyOf r = k then 1 else 0) := by
  unfold edgeCount
  rw [insertEndpoint_edges, bumpEdge_count]

theorem edgeCount_foldl (s : List ResolvedEndpoint) :
    ∀ g k, edgeCount (s.foldl insertEndpoint g) k = edgeCount g k + streamKeyCount s k := by
  induction s with
  | nil => intro g k; simp [streamKeyCount]
  | cons r rest ih =>
    intro g k
    simp only [List.foldl_cons]
    rw [ih, edgeCount_insertEndpoint]
    unfold streamKeyCount
    by_cases hr : edgeKeyOf r = k
    · simp [hr]
      omega
    · simp [hr]

theorem insertEndpoint_footprint {g : Graph} {r : ResolvedEndpoint} (h : hasFootprint g r) :
    (insertEndpoint g r).nodes = g.nodes ∧
    (insertEndpoint g r).edges.map Prod.fst = g.edges.map Prod.fst := by
  obtain ⟨hs, ht, hk⟩ := h
  constructor
  · rw [insertEndpoint_nodes, insertNode_of_mem hs, insertNode_of_mem ht]
  · rw [insertEndpoint_edges, bumpEdge_keys_of_mem hk]

theorem mem_insertEndpoint_nodes {g : Graph} {m : String} (r : ResolvedEndpoint)
    (h : m ∈ g.nodes) : m ∈ (insertEndpoint g r).nodes := by
  rw [insertEndpoint_nodes]
  exact mem_insertNode_of_mem _ (mem_insertNode_of_mem _ h)

theorem mem_insertEndpoint_keys {g : Graph} {k : EdgeKey} (r : ResolvedEndpoint)
    (h : k ∈ g.edges.map Prod.fst) : k ∈ (insertEndpoint g r).edges.map Prod.fst := by
  rw [insertEndpoint_edges]
  exact bumpEdge_keys_mono _ h

theorem insertEndpoint_own_footprint (g : Graph) (r : ResolvedEndpoint) :
    hasFootprint (insertEndpoint g r) r := by
  refine ⟨?_, ?_, ?_⟩
  · rw [insertEndpoint_nodes]
    exact mem_insertNode_of_mem _ (mem_insertNode_self _ _)
  · rw [insertEndpoint_nodes]
    exact mem_insertNode_self _ _
  · rw [insertEndpoint_edges]
    exact mem_bumpEdge_self _ _

theorem foldl_footprint_mono (s : List ResolvedEndpoint) :
    ∀ {g : Graph} {r : ResolvedEndpoint}, hasFootprint g r →
      hasFootprint (s.foldl insertEndpoint g) r := by
  induction s with
  | nil => intro g r h; exact h
  | cons r0 rest ih =>
    intro g r h
    simp only [List.foldl_cons]
    exact ih ⟨mem_insertEndpoint_nodes r0 h.1, mem_insertEndpoint_nodes r0 h.2.1,
      mem_insertEndpoint_keys r0 h.2.2⟩

theorem foldl_of_footprint (s : List ResolvedEndpoint) :
    ∀ g : Graph, (∀ r ∈ s, hasFootprint g r) →
      (s.foldl insertEndpoint g).nodes = g.nodes ∧
      (s.foldl insertEndpoint g).edges.map Prod.fst = g.edges.map Prod.fst := by
  induction s with
  | nil => intro g _; exact ⟨rfl, rfl⟩
  | cons r rest ih =>
    intro g hall
    simp only [List.foldl_cons]
    have hr := hall r (by simp)
    have hstep := insertEndpoint_footprint hr
    have hrest : ∀ x ∈ rest, hasFootprint (insertEndpoint g r) x := by
      intro x hx
      have := hall x (by simp [hx])
      exact ⟨hstep.1 ▸ this.1, hstep.1 ▸ this.2.1, hstep.2 ▸ this.2.2⟩
    have := ih (insertEndpoint g r) hrest
    exact ⟨this.1.trans hstep.1, this.2.trans hstep.2⟩

theorem buildGraph_footprint (rs : List ResolvedEndpoint) :
    ∀ r ∈ rs, hasFootprint (buildGraph rs) r := by
  unfold buildGraph
  generalize emptyGraph = g0
  induction rs generalizing g0 with
  | nil => intro r h; simp at h
  | cons r0 rest ih =>
    intro r hr
    simp only [List.foldl_cons]
    rcases List.mem_cons.mp hr with h | h
    · subst h
      exact foldl_footprint_mono rest (insertEndpoint_own_footprint g0 r)
    · exact ih (insertEndpoint g0 r0) r h

theorem mem_insertSorted (x y : String) (l : List String) :
    y ∈ insertSorted x l ↔ y = x ∨ y ∈ l := by
  induction l with
  | nil => simp [insertSorted]
  | cons z zs ih =>
    unfold insertSorted
    by_cases h1 : x = z
    · rw [if_pos h1]
      subst h1
      constructor
      · intro h; exact Or.inr h
      · rintro (h | h)
        · simp [h]
        · exact h
    · rw [if_neg h1]
      split
      · simp only [List.mem_cons]
      · simp only [List.mem_cons, ih]
        tauto

theorem mem_insertAllSorted (y : String) (xs : List String) :
    ∀ acc, y ∈ insertAllSorted acc xs ↔ y ∈ acc ∨ y ∈ xs := by
  induction xs with
  | nil => intro acc; simp [insertAllSorted]
  | cons z zs ih =>
    intro acc
    unfold insertAllSorted at ih ⊢
    simp only [List.foldl_cons]
    rw [ih, mem_insertSorted]
    simp only [List.mem_cons]
    tauto

theorem mem_growOnce (g : Graph) (s : List String) (y : String) :
    y ∈ growOnce g s ↔ y ∈ s ∨ ∃ z ∈ s, y ∈ undirNeighbors g z := by
  unfold growOnce
  rw [mem_insertAllSorted]
  simp [List.mem_flatMap]

theorem mem_reachSet (g : Graph) (x : String) :
    ∀ (n : Nat) (y : String), y ∈ reachSet g x n ↔ ∃ m ≤ n, ReachN g x y m := by
  intro n
  induction n with
  | zero =>
    intro y
    simp only [reachSet, List.mem_singleton]
    constructor
    · intro h
      subst h
      exact ⟨0, Nat.le_refl 0, ReachN.zero⟩
    · rintro ⟨m, hm, hr⟩
      have hm0 : m = 0 := Nat.le_zero.mp hm
      subst hm0
      cases hr
      rfl
  | succ n ih =>
    intro y
    simp only [reachSet]
    rw [mem_growOnce]
    constructor
    · rintro (h | ⟨z, hz, hn⟩)
      · obtain ⟨m, hm, hr⟩ := (ih y).mp h
        exact ⟨m, Nat.le_succ_of_le hm, hr⟩
      · obtain ⟨m, hm, hr⟩ := (ih z).mp hz
        exact ⟨m + 1, Nat.succ_le_succ hm, ReachN.succ hr hn⟩
    · rintro ⟨m, hm, hr⟩
      rcases Nat.lt_or_ge m (n + 1) with hlt | hge
      · exact Or.inl ((ih y).mpr ⟨m, Nat.lt_succ_iff.mp hlt, hr⟩)
      · have hme : m = n + 1 := Nat.le_antisymm hm hge
        subst hme
        cases hr with
        | succ hr' hn' => exact Or.inr ⟨_, (ih _).mpr ⟨_, Nat.le_refl n, hr'⟩, hn'⟩

theorem mem_blastBlock (g : Graph) (x y : String) (d e : Nat) :
    (y, d) ∈ blastBlock g x e ↔
      d = e ∧ ((e = 0 ∧ y = x) ∨
        (0 < e ∧ y ∈ reachSet g x e ∧ y ∉ reachSet g x (e - 1))) := by
  cases e with
  | zero =>
    simp only [blastBlock, List.mem_singleton, Prod.mk.injEq]
    constructor
    · rintro ⟨hy, hd⟩
      exact ⟨hd, Or.inl ⟨by simp, hy⟩⟩
    · rintro ⟨hd, ⟨_, hy⟩ | ⟨h0, _⟩⟩
      · exact ⟨hy, hd⟩
      · cases h0
  | succ e =>
    simp only [blastBlock, List.mem_map, List.mem_filter, Prod.mk.injEq,
      decide_eq_true_eq]
    constructor
    · rintro ⟨a, ⟨hin, hout⟩, ha, hd⟩
      subst ha
      exact ⟨hd.symm, Or.inr ⟨Nat.succ_pos e, hin, by simpa using hout⟩⟩
    · rintro ⟨hd, ⟨h0, _⟩ | ⟨_, hin, hout⟩⟩
      · cases h0
      · exact ⟨y, ⟨hin, by simpa using hout⟩, rfl, hd.symm⟩

/-- C3: for every graph and node `x` in it, `blast_radius x 0` is exactly
the singleton map `{x : 0}`; in general `(y, d)` appears in
`blast_radius x h` precisely when `d ≤ h` and `d` is the minimum
undirected hop distance from `x` to `y` — every reached node is mapped to
its minimum hop distance, with hop 0 the changed service itself. -/
theorem c3_blast_radius_minimal (g : Graph) (x : String) (h : Nat) (hx : x ∈ g.nodes) :
    blast_radius g x 0 = [(x, 0)] ∧
    (∀ y d, (y, d) ∈ blast_radius g x h ↔ d ≤ h ∧ minHopDist g x y d) := by
  refine ⟨rfl, ?_⟩
  intro y d
  simp only [minHopDist]
  constructor
  · intro hmem
    unfold blast_radius at hmem
    simp only [List.mem_flatMap, List.mem_range] at hmem
    obtain ⟨e, he, hbl⟩ := hmem
    obtain ⟨hde, hcases⟩ := (mem_blastBlock g x y d e).mp hbl
    subst hde
    refine ⟨Nat.lt_succ_iff.mp he, ?_⟩
    rcases hcases with ⟨h0, hyx⟩ | ⟨hpos, hin, hout⟩
    · subst h0
      subst hyx
      exact ⟨ReachN.zero, fun m _ => Nat.zero_le m⟩
    · have hmin : ∀ m, ReachN g x y m → d ≤ m := by
        intro m hr
        by_contra hlt
        push_neg at hlt
        have hm : m ≤ d - 1 := by omega
        exact hout ((mem_reachSet g x (d - 1) y).mpr ⟨m, hm, hr⟩)
      obtain ⟨m, hm, hr⟩ := (mem_reachSet g x d y).mp hin
      have hdm : m = d := Nat.le_antisymm hm (hmin m hr)
      subst hdm
      exact ⟨hr, hmin⟩
  · rintro ⟨hdh, hr, hmin⟩
    unfold blast_radius
    simp only [List.mem_flatMap, List.mem_range]
    refine ⟨d, Nat.lt_succ_of_le hdh, ?_⟩
    rw [mem_blastBlock]
    refine ⟨rfl, ?_⟩
    cases d with
    | zero =>
      left
      cases hr
      exact ⟨rfl, rfl⟩
    | succ e =>
      right
      refine ⟨Nat.succ_pos e,
        (mem_reachSet g x (e + 1) y).mpr ⟨e + 1, Nat.le_refl _, hr⟩, ?_⟩
      intro hin
      obtain ⟨m, hm, hr'⟩ := (mem_reachSet g x (e + 1 - 1) y).mp hin
      have := hmin m hr'
      omega

/-- C3 witness: on the example graph, `blast_radius` at `max_hops = 0`
returns exactly the changed service at hop 0. -/
theorem c3_blast_radius_witness :
    blast_radius exPropGraph "paymentService" 0 = [("paymentService", 0)] :=
  (c3_blast_radius_minimal exPropGraph "paymentService" 0 (by decide)).1

/-- C4: running the Graph Builder twice over the same resolved-endpoint
stream yields the same node table and the same edge-key table as running
it once, with every per-edge occurrence count doubled rather than any
edge duplicated; and double insertion of the same endpoint is a no-op on
the node and edge-key tables. -/
theorem c4_buildGraph_idempotent (rs : List ResolvedEndpoint) :
    (buildGraph (rs ++ rs)).nodes = (buildGraph rs).nodes ∧
    (buildGraph (rs ++ rs)).edges.map Prod.fst = (buildGraph rs).edges.map Prod.fst ∧
    (∀ k, edgeCount (buildGraph (rs ++ rs)) k = 2 * edgeCount (buildGraph rs) k) ∧
    (∀ g n, insertNode (insertNode g n) n = insertNode g n) ∧
    (∀ g r, (insertEndpoint (insertEndpoint g r) r).nodes = (insertEndpoint g r).nodes ∧
      (insertEndpoint (insertEndpoint g r) r).edges.map Prod.fst =
        (insertEndpoint g r).edges.map Prod.fst ∧
      edgeCount (insertEndpoint (insertEndpoint g r) r) (edgeKeyOf r) =
        edgeCount (insertEndpoint g r) (edgeKeyOf r) + 1) := by
  have hsplit : buildGraph (rs ++ rs) = rs.foldl insertEndpoint (buildGraph rs) := by
    unfold buildGraph
    rw [List.foldl_append]
  have hfoot := foldl_of_footprint rs (buildGraph rs) (buildGraph_footprint rs)
  refine ⟨?_, ?_, ?_, ?_, ?_⟩
  · rw [hsplit]; exact hfoot.1
  · rw [hsplit]; exact hfoot.2
  · intro k
    rw [hsplit, edgeCount_foldl]
    have h0 : edgeCount (buildGraph rs) k = streamKeyCount rs k := by
      have := edgeCount_foldl rs emptyGraph k
      unfold buildGraph
      rw [this]
      simp [edgeCount, emptyGraph]
    rw [h0]
    omega
  · intro g n
    exact insertNode_of_mem (mem_insertNode_self g n)
  · intro g r
    have hf := insertEndpoint_footprint (insertEndpoint_own_footprint g r)
    refine ⟨hf.1, hf.2, ?_⟩
    rw [edgeCount_insertEndpoint]
    simp

theorem mem_insertNode_cases {g : Graph} {n m : String} (h : n ∈ (insertNode g m).nodes) :
    n ∈ g.nodes ∨ n = m := by
  unfold insertNode at h
  split at h
  · exact Or.inl h
  · simp only [List.mem_append, List.mem_singleton] at h
    exact h

theorem foldl_nodes_from (s : List ResolvedEndpoint) :
    ∀ g : Graph, ∀ n ∈ (s.foldl insertEndpoint g).nodes,
      n ∈ g.nodes ∨ ∃ r ∈ s, n = r.source ∨ n = r.target := by
  induction s with
  | nil => intro g n h; exact Or.inl h
  | cons r rest ih =>
    intro g n h
    simp only [List.foldl_cons] at h
    rcases ih (insertEndpoint g r) n h with h' | ⟨r', hr', ho⟩
    · rw [insertEndpoint_nodes] at h'
      rcases mem_insertNode_cases h' with h'' | h''
      · rcases mem_insertNode_cases h'' with h3 | h3
        · exact Or.inl h3
        · exact Or.inr ⟨r, by simp, Or.inl h3⟩
      · exact Or.inr ⟨r, by simp, Or.inr h''⟩
    · exact Or.inr ⟨r', by simp [hr'], ho⟩

theorem buildGraph_nodes_from (rs : List ResolvedEndpoint) :
    ∀ n ∈ (buildGraph rs).nodes, ∃ r ∈ rs, n = r.source ∨ n = r.target := by
  intro n h
  rcases foldl_nodes_from rs emptyGraph n h with h' | h'
  · simp [emptyGraph] at h'
  · exact h'

/-- C5: a scan's final status is `success` whenever at least one
repository yielded nodes and `error` exactly when every repository failed
outright; `per_repo_errors` lists exactly the failed repositories with
their reasons, and every node of the returned graph comes from a
successful repository's resolved stream. -/
theorem c5_run_scan_partial_failure (scans : List RepoScan) :
    ((∃ s ∈ scans, repoYieldedNodes s = true) → (run_scan scans).status = JobStatus.success) ∧
    ((run_scan scans).status = JobStatus.error ↔ ∀ s ∈ scans, repoFailed s = true) ∧
    (∀ nm e, (nm, e) ∈ (run_scan scans).perRepoErrors ↔
      ∃ s ∈ scans, s.repoName = nm ∧ s.result = Except.error e) ∧
    (∀ n ∈ (run_scan scans).graph.nodes,
      ∃ s ∈ scans, ∃ rs, s.result = Except.ok rs ∧ ∃ r ∈ rs, n = r.source ∨ n = r.target) := by
  have hstatus : (run_scan scans).status
      = if scans.all repoFailed = true then JobStatus.error else JobStatus.success := rfl
  refine ⟨?_, ?_, ?_, ?_⟩
  · rintro ⟨s, hs, hy⟩
    have hf : repoFailed s = false := by
      unfold repoYieldedNodes at hy
      unfold repoFailed
      cases hres : s.result with
      | error e => rw [hres] at hy; cases hy
      | ok rs => rfl
    have hall : ¬ scans.all repoFailed = true := by
      intro hall
      have := List.all_eq_true.mp hall s hs
      rw [hf] at this
      cases this
    rw [hstatus, if_neg hall]
  · rw [hstatus]
    cases hab : scans.all repoFailed with
    | true =>
      simp only [if_pos]
      simp only [true_iff]
      exact fun s hs => List.all_eq_true.mp hab s hs
    | false =>
      simp only [Bool.false_eq_true, if_neg, not_false_eq_true]
      constructor
      · intro h
        cases h
      · intro hall
        rw [List.all_eq_true.mpr hall] at hab
        cases hab
  · intro nm e
    show (nm, e) ∈ failedRepos scans ↔ _
    unfold failedRepos
    simp only [List.mem_filterMap]
    constructor
    · rintro ⟨s, hs, heq⟩
      refine ⟨s, hs, ?_⟩
      cases hres : s.result with
      | ok rs =>
        rw [hres] at heq
        simp at heq
      | error err =>
        rw [hres] at heq
        simp only [Option.some.injEq, Prod.mk.injEq] at heq
        exact ⟨heq.1, by rw [heq.2]⟩
    · rintro ⟨s, hs, hnm, hres⟩
      refine ⟨s, hs, ?_⟩
      rw [hres]
      simp [hnm]
  · intro n h
    have h' : n ∈ (buildGraph (successfulEndpoints scans)).nodes := h
    obtain ⟨r, hr, ho⟩ := buildGraph_nodes_from _ n h'
    unfold successfulEndpoints at hr
    simp only [List.mem_flatMap] at hr
    obtain ⟨s, hs, hrs⟩ := hr
    cases hres : s.result with
    | ok rs =>
      rw [hres] at hrs
      exact ⟨s, hs, rs, hres, r, hrs, ho⟩
    | error err =>
      rw [hres] at hrs
      simp at hrs

/-- C5 witness: with one successful and one failed repository the job
succeeds, the failed repository is reported, and the graph's nodes come
from the successful one. -/
theorem c5_run_scan_witness :
    (run_scan [⟨"r1", Except.ok [⟨"a", "b", EdgeKind.http, "u"⟩]⟩,
               ⟨"r2", Except.error "timeout"⟩]).status = JobStatus.success ∧
    ("r2", "timeout") ∈ (run_scan [⟨"r1", Except.ok [⟨"a", "b", EdgeKind.http, "u"⟩]⟩,
               ⟨"r2", Except.error "timeout"⟩]).perRepoErrors :=
  ⟨(c5_run_scan_partial_failure _).1
      ⟨⟨"r1", Except.ok [⟨"a", "b", EdgeKind.http, "u"⟩]⟩, by simp, by decide⟩,
   ((c5_run_scan_partial_failure _).2.2.1 "r2" "timeout").mpr
      ⟨⟨"r2", Except.error "timeout"⟩, by simp, rfl, rfl⟩⟩

theorem insertNode_nodup {g : Graph} (h : g.nodes.Nodup) (n : String) :
    (insertNode g n).nodes.Nodup := by
  unfold insertNode
  split
  · exact h
  · rename_i hn
    simp [List.nodup_append, h, hn]

theorem insertEndpoint_nodup {g : Graph} (h : g.nodes.Nodup) (r : ResolvedEndpoint) :
    (insertEndpoint g r).nodes.Nodup := by
  rw [insertEndpoint_nodes]
  exact insertNode_nodup (insertNode_nodup h r.source) r.target

theorem foldl_nodes_nodup (s : List ResolvedEndpoint) :
    ∀ g : Graph, g.nodes.Nodup → (s.foldl insertEndpoint g).nodes.Nodup := by
  induction s with
  | nil => intro g h; exact h
  | cons r rest ih =>
    intro g h
    simp only [List.foldl_cons]
    exact ih _ (insertEndpoint_nodup h r)

theorem buildGraph_nodes_nodup (rs : List ResolvedEndpoint) : (buildGraph rs).nodes.Nodup :=
  foldl_nodes_nodup rs emptyGraph (by simp [emptyGraph])

/-- C6: resolution converges — the resolved service identity is a pure
function of the normalized name (two identifiers with the same
normalization resolve identically against the same repository table), the
Builder's node table never holds two nodes with the same identity, and in
the two-repository scenario the built graph contains exactly one node
named `payment-service`. -/
theorem c6_resolution_convergence
    (repos : List (String × String)) (i1 i2 : String)
    (h12 : normalizeIdent i1 = normalizeIdent i2) :
    resolveIdent repos i1 = resolveIdent repos i2 ∧
    (∀ rs : List ResolvedEndpoint, (buildGraph rs).nodes.Nodup) ∧
    (exConvGraph.nodes.filter (fun n => nodeNamePart n = "payment-service")).length = 1 := by
  refine ⟨?_, buildGraph_nodes_nodup, by decide⟩
  unfold resolveIdent
  rw [h12]

/-- C6 witness: `PAYMENT_SERVICE_URL` and `payment_service` normalize
identically, so they resolve to the same (external) service identity. -/
theorem c6_resolution_convergence_witness :
    resolveIdent exConvRepos "PAYMENT_SERVICE_URL" = resolveIdent exConvRepos "payment_service" :=
  (c6_resolution_convergence exConvRepos "PAYMENT_SERVICE_URL" "payment_service" (by decide)).1

/-- C7: a scan job's status is terminal once `success` or `error` (no
transition leaves either state), and the dashboard polling callback stops
polling exactly upon observing one of these two statuses, navigating to
the graph page on `success` and surfacing the error via an alert on
`error`. -/
theorem c7_terminal_status (t : ScanStatus) (scanId : String) (st : PollState)
    (resp : StatusResponse) :
    allowedTransition ScanStatus.success t = false ∧
    allowedTransition ScanStatus.error t = false ∧
    (st.polling = true →
      ((pollTick scanId st resp).polling = false ↔
        (resp.status = ScanStatus.success ∨ resp.status = ScanStatus.error)) ∧
      (resp.status = ScanStatus.success →
        pollTick scanId st resp =
          { polling := false, navigation := some ("/graph?scan_id=" ++ scanId),
            alertMsg := st.alertMsg }) ∧
      (resp.status = ScanStatus.error →
        pollTick scanId st resp =
          { polling := false, navigation := st.navigation,
            alertMsg := some ("Scan failed: " ++ resp.errMsg) })) := by
  refine ⟨by cases t <;> rfl, by cases t <;> rfl, ?_⟩
  intro hpoll
  unfold pollTick
  rw [hpoll]
  cases hs : resp.status <;> simp [hs, hpoll]

/-- C7 witness: observing `success` stops polling and navigates to the
graph page. -/
theorem c7_terminal_status_witness :
    pollTick "42" ⟨true, none, none⟩ ⟨ScanStatus.success, ""⟩ =
      ⟨false, some "/graph?scan_id=42", none⟩ :=
  ((c7_terminal_status ScanStatus.queued "42" ⟨true, none, none⟩
    ⟨ScanStatus.success, ""⟩).2.2 rfl).2.1 rfl

/-- C8: in `chat` mode a message containing `error` or `log` (lowercased)
goes to the error-analyzer endpoint; otherwise one containing `what if`,
`impact` or `change` goes to the what-if endpoint; otherwise to the NLQ
endpoint.  Explicit `error-analyzer` and `what-if` modes bypass the
keyword tests, and every send calls exactly one endpoint. -/
theorem c8_routeEndpoint_cases (msg : String) :
    (∀ mode, (routeEndpoint mode msg).isSome = true) ∧
    routeEndpoint ToolMode.errorAnalyzer msg = some ChatEndpoint.errorAnalyzerEndpoint ∧
    routeEndpoint ToolMode.whatIf msg = some ChatEndpoint.whatIfEndpoint ∧
    ((containsSub (lowerStr msg) "error" || containsSub (lowerStr msg) "log") = true →
      routeEndpoint ToolMode.chat msg = some ChatEndpoint.errorAnalyzerEndpoint) ∧
    ((containsSub (lowerStr msg) "error" || containsSub (lowerStr msg) "log") = false →
      (containsSub (lowerStr msg) "what if" || containsSub (lowerStr msg) "impact" ||
        containsSub (lowerStr msg) "change") = true →
      routeEndpoint ToolMode.chat msg = some ChatEndpoint.whatIfEndpoint) ∧
    ((containsSub (lowerStr msg) "error" || containsSub (lowerStr msg) "log") = false →
      (containsSub (lowerStr msg) "what if" || containsSub (lowerStr msg) "impact" ||
        containsSub (lowerStr msg) "change") = false →
      routeEndpoint ToolMode.chat msg = some ChatEndpoint.nlqEndpoint) := by
  refine ⟨?_, rfl, rfl, ?_, ?_, ?_⟩
  · intro mode
    cases mode
    case chat =>
      unfold routeEndpoint
      cases he : containsSub (lowerStr msg) "error" <;>
        cases hl : containsSub (lowerStr msg) "log" <;>
        cases hw : containsSub (lowerStr msg) "what if" <;>
        cases hi : containsSub (lowerStr msg) "impact" <;>
        cases hc : containsSub (lowerStr msg) "change" <;> rfl
    all_goals rfl
  · intro h
    unfold routeEndpoint
    cases he : containsSub (lowerStr msg) "error" <;>
      cases hl : containsSub (lowerStr msg) "log" <;>
      rw [he, hl] at h <;> first | rfl | simp_all
  · intro h1 h2
    unfold routeEndpoint
    cases he : containsSub (lowerStr msg) "error" <;>
      cases hl : containsSub (lowerStr msg) "log" <;>
      cases hw : containsSub (lowerStr msg) "what if" <;>
      cases hi : containsSub (lowerStr msg) "impact" <;>
      cases hc : containsSub (lowerStr msg) "change" <;>
      rw [he, hl] at h1 <;> rw [hw, hi, hc] at h2 <;> first | rfl | simp_all
  · intro h1 h2
    unfold routeEndpoint
    cases he : containsSub (lowerStr msg) "error" <;>
      cases hl : containsSub (lowerStr msg) "log" <;>
      cases hw : containsSub (lowerStr msg) "what if" <;>
      cases hi : containsSub (lowerStr msg) "impact" <;>
      cases hc : containsSub (lowerStr msg) "change" <;>
      rw [he, hl] at h1 <;> rw [hw, hi, hc] at h2 <;> first | rfl | simp_all

/-- C8 witness: concrete sends in `chat` mode reach each of the three
endpoints according to their keywords. -/
theorem c8_routeEndpoint_witness :
    routeEndpoint ToolMode.chat "check the payment log" = some ChatEndpoint.errorAnalyzerEndpoint ∧
    routeEndpoint ToolMode.chat "what if we scale" = some ChatEndpoint.whatIfEndpoint ∧
    routeEndpoint ToolMode.chat "list services" = some ChatEndpoint.nlqEndpoint :=
  ⟨(c8_routeEndpoint_cases "check the payment log").2.2.2.1 (by decide),
   (c8_routeEndpoint_cases "what if we scale").2.2.2.2.1 (by decide) (by decide),
   (c8_routeEndpoint_cases "list services").2.2.2.2.2 (by decide) (by decide)⟩

/-- C9: `truncateToWords` returns the text unchanged (untruncated) when it
has at most `n` words, returns `("", false)` on empty text, and otherwise
returns the first `n` words joined by single spaces with `...` appended,
flagged truncated, built from at most `n` words. -/
theorem c9_truncateToWords_cases (s : String) (n : Nat) :
    (s = "" → truncateToWords s n = ("", false)) ∧
    ((splitWords s).length ≤ n → truncateToWords s n = (s, false)) ∧
    (s ≠ "" → n < (splitWords s).length →
      truncateToWords s n =
        (String.intercalate " " ((splitWords s).take n) ++ "...", true) ∧
      ((splitWords s).take n).length ≤ n) := by
  refine ⟨?_, ?_, ?_⟩
  · intro h
    simp [truncateToWords, h]
  · intro h
    by_cases hs : s = ""
    · simp [truncateToWords, hs]
    · simp [truncateToWords, hs, h]
  · intro hs h
    constructor
    · simp [truncateToWords, hs, Nat.not_le.mpr h]
    · simp [List.length_take]

/-- C9 witness: a 3-word text truncates at word limit 2 and a 2-word text
passes through at word limit 5. -/
theorem c9_truncateToWords_witness :
    truncateToWords "one two three" 2 = ("one two...", true) ∧
    truncateToWords "hi there" 5 = ("hi there", false) := by
  constructor
  · rw [((c9_truncateToWords_cases "one two three" 2).2.2 (by decide) (by decide)).1]
    decide
  · exact (c9_truncateToWords_cases "hi there" 5).2.1 (by decide)

/-- C10 counterexample: with `NEXT_PUBLIC_API_URL` set to the empty string
(and no window), `getApiUrl` does not return the variable verbatim — JS
truthiness sends the empty value down the fallback path. -/
theorem c10_getApiUrl_counterexample :
    (⟨some "", none⟩ : ApiEnv).apiUrl = some "" ∧ getApiUrl ⟨some "", none⟩ ≠ "" := by
  decide

/-- C10 (amended): `getApiUrl` returns `NEXT_PUBLIC_API_URL` verbatim
whenever it is set to a nonempty string; otherwise, with a browser window,
hosts `localhost` and `127.0.0.1` map to `http://localhost:8000` and any
other host to `protocol + "//" + hostname + "/api"`; without a window the
fallback `http://localhost:8000` is returned.  Being a function of the
environment, it is total and deterministic. -/
theorem c10_getApiUrl_cases (env : ApiEnv) :
    (∀ u, env.apiUrl = some u → u ≠ "" → getApiUrl env = u) ∧
    ((env.apiUrl = none ∨ env.apiUrl = some "") →
      (∀ w, env.window = some w →
        ((w.hostname = "localhost" ∨ w.hostname = "127.0.0.1") →
          getApiUrl env = "http://localhost:8000") ∧
        (¬ (w.hostname = "localhost" ∨ w.hostname = "127.0.0.1") →
          getApiUrl env = w.protocol ++ "//" ++ w.hostname ++ "/api")) ∧
      (env.window = none → getApiUrl env = "http://localhost:8000")) := by
  constructor
  · intro u hu hne
    simp [getApiUrl, envTruthy, hu, hne]
  · intro henv
    have htr : envTruthy env.apiUrl = false := by
      rcases henv with h | h <;> simp [envTruthy, h]
    refine ⟨?_, ?_⟩
    · intro w hw
      constructor
      · intro hloc
        simp [getApiUrl, htr, hw, hloc]
      · intro hloc
        simp [getApiUrl, htr, hw, hloc]
    · intro hw
      simp [getApiUrl, htr, hw]

/-- C10 witness: a nonempty env value is returned verbatim; a production
host maps to the proxied `/api` URL. -/
theorem c10_getApiUrl_witness :
    getApiUrl ⟨some "http://api.example", none⟩ = "http://api.example" ∧
    getApiUrl ⟨none, some ⟨"https:", "applens.io"⟩⟩ = "https://applens.io/api" := by
  constructor
  · exact (c10_getApiUrl_cases ⟨some "http://api.example", none⟩).1 "http://api.example" rfl
      (by decide)
  · rw [(((c10_getApiUrl_cases ⟨none, some ⟨"https:", "applens.io"⟩⟩).2 (Or.inl rfl)).1
      ⟨"https:", "applens.io"⟩ rfl).2 (by decide)]
    decide

end AppLens
